import Mathlib

/-!
Shallow embedding of the pprotein telemetry analysis engine.

Source files embedded here:
* `src/unnamed/part_002` (package `httplog`, the variant taking an optional
  ALP configuration): `Analyze`, `analyzeLog`, `extractSlowRequests`,
  `extractField`, `patternizeURI`, `min`.
* `src/internal/analyze/pprof/analyzer.go`: `generateStructuredJSON`
  (stack-trace part), `generateTextReportFromProfile`, and the slowlog
  analyzer `Analyze` (package `slowlog`) contained in the same file.

Modelling conventions:
* Go `float64` values (request times, query times, percentages) are modelled
  by `ℚ`.  None of the properties proved here depend on floating-point
  rounding: they are assignments, comparisons, sorting and `min`/`max`
  reasoning, valid in any linear ordered field.
* Go `int64`/`int` profile values are modelled by `ℤ` (no claim involves
  overflow behaviour), counters by `ℕ`.
* Go maps are modelled by total functions into `Option` (for lookup-only
  maps) or by association lists (for maps that are later enumerated).
  Go's `sort.Slice`, an unstable comparison sort, is modelled by
  `List.insertionSort` with the non-strict converse of the Go `less`
  function; every property proved about the sorted output (sortedness,
  membership, length) is independent of how the sort breaks ties.
* The external standard-library functions `strings.Split`,
  `strings.HasPrefix`, `strconv.ParseFloat`, `strconv.Atoi` and the regular
  expression replacement used by `patternizeURI` are modelled explicitly on
  `List Char`; `strconv` failures yield `0` exactly as in the source, where
  the error is discarded.
-/

/-- Propositional "every element of the list satisfies `p`", defined by
recursion so that statements using it contain no binders. -/
def ListAll {α : Type} (p : α → Prop) : List α → Prop
  | [] => True
  | a :: l => p a ∧ ListAll p l

theorem listAll_iff {α : Type} (p : α → Prop) (l : List α) :
    ListAll p l ↔ ∀ a ∈ l, p a := by
  induction l with
  | nil => simp [ListAll]
  | cons a l ih => simp [ListAll, ih]

namespace Httplog

/-- Model of Go `strings.Split` with a one-character separator: splits the
character list at every occurrence of `sep`, keeping empty fragments. -/
def splitChar (sep : Char) : List Char → List (List Char)
  | [] => [[]]
  | c :: rest =>
    match splitChar sep rest with
    | [] => [[]]
    | g :: gs => if c = sep then [] :: g :: gs else (c :: g) :: gs

/-- Go `strings.Split(line, "\t")`. -/
def splitTab (s : String) : List String := (splitChar '\t' s.data).map String.mk

/-- Go `strings.Split(content, "\n")`. -/
def splitLines (s : String) : List String := (splitChar '\n' s.data).map String.mk

/-- Numeric value of a list of decimal digit characters. -/
def digitsVal (l : List Char) : ℕ := l.foldl (fun n c => 10 * n + (c.toNat - 48)) 0

/-- Model of the decimal fragment of Go `strconv.ParseFloat`: optional sign,
integer digits, optional fractional part.  Returns `none` on malformed
input (exponent and hexadecimal forms are not needed by any claim). -/
def parseRatCore (l : List Char) : Option ℚ :=
  let sp : Bool × List Char :=
    match l with
    | '-' :: rest => (true, rest)
    | '+' :: rest => (false, rest)
    | _ => (false, l)
  let ip := sp.2.takeWhile Char.isDigit
  let r1 := sp.2.dropWhile Char.isDigit
  match r1 with
  | [] =>
    if ip.isEmpty then none
    else some (cond sp.1 (-(digitsVal ip : ℚ)) (digitsVal ip))
  | '.' :: fp =>
    if fp.all Char.isDigit ∧ ¬(ip.isEmpty ∧ fp.isEmpty) then
      let v : ℚ := (digitsVal ip : ℚ) + (digitsVal fp : ℚ) / ((10 : ℚ) ^ fp.length)
      some (cond sp.1 (-v) v)
    else none
  | _ => none

/-- Go `reqtime, _ := strconv.ParseFloat(s, 64)`: the error is discarded, a
failed parse leaves the zero value. -/
def parseRat (s : String) : ℚ := (parseRatCore s.data).getD 0

/-- Model of Go `strconv.Atoi` (optional sign, all digits); `none` on
malformed input. -/
def parseIntCore (l : List Char) : Option ℤ :=
  let sp : Bool × List Char :=
    match l with
    | '-' :: rest => (true, rest)
    | '+' :: rest => (false, rest)
    | _ => (false, l)
  if sp.2.isEmpty then none
  else if sp.2.all Char.isDigit then
    some (cond sp.1 (-(digitsVal sp.2 : ℤ)) (digitsVal sp.2))
  else none

/-- Go `status, _ := strconv.Atoi(s)`: the error is discarded. -/
def parseInt (s : String) : ℤ := (parseIntCore s.data).getD 0

/-- Embeds `extractField` of `src/unnamed/part_002`: return the remainder of
the first field starting with the given key, or `""` when no field matches. -/
def extractField (fields : List String) (key : String) : String :=
  match fields.find? (fun f => key.data.isPrefixOf f.data) with
  | some f => String.mk (f.data.drop key.data.length)
  | none => ""

/-- One scanning automaton step for the Go replacement
`regexp.MustCompile("/\\d+(/|$)").ReplaceAllString(uri, "/:id$1")`, the
no-configuration branch of `patternizeURI`.  The `pending` argument is
`none` when no match is in progress and `some ds` when a `'/'` followed by
the digits `ds` has been read but not yet emitted.  Matches are
non-overlapping and leftmost, and a match ending in `'/'` consumes that
slash, exactly as Go's `ReplaceAllString` behaves. -/
def patStep : Option (List Char) → List Char → List Char
  | none, [] => []
  | some ds, [] => if ds.isEmpty then ['/'] else "/:id".data
  | none, c :: rest => if c = '/' then patStep (some []) rest else c :: patStep none rest
  | some ds, c :: rest =>
    if c.isDigit then patStep (some (ds ++ [c])) rest
    else if c = '/' then
      if ds.isEmpty then '/' :: patStep (some []) rest
      else "/:id/".data ++ patStep none rest
    else '/' :: (ds ++ c :: patStep none rest)

/-- Embeds the default branch of `patternizeURI` (`src/unnamed/part_002`):
replace every purely numeric path segment by `:id`.  This is the behaviour
with no ALP configuration (nil or empty matching groups), the case the
idempotence claim is about. -/
def patternizeURI (uri : String) : String := String.mk (patStep none uri.data)

/-- Companion automaton to `patStep` deciding whether the regular expression
`/\d+(/|$)` matches anywhere in the input.  The pending flag records whether
a `'/'` has been read (`some d`, with `d = true` once at least one digit
followed it). -/
def hmStep : Option Bool → List Char → Bool
  | none, [] => false
  | some d, [] => d
  | none, c :: rest => if c = '/' then hmStep (some false) rest else hmStep none rest
  | some d, c :: rest =>
    if c.isDigit then hmStep (some true) rest
    else if c = '/' then
      if d then true else hmStep (some false) rest
    else hmStep none rest

/-- Whether `/\d+(/|$)` matches anywhere in the string. -/
def hasMatch (s : String) : Bool := hmStep none s.data

/-- Embeds `SlowRequest` of `src/unnamed/part_002`. -/
structure SlowRequest where
  time : String
  uri : String
  method : String
  reqTime : ℚ
  host : String
deriving DecidableEq

/-- Embeds `EndpointStats` of `src/unnamed/part_002`; `statusCodes` models
the Go `map[int]int` (absent key = 0). -/
structure EndpointStats where
  count : ℕ
  totalTime : ℚ
  avgTime : ℚ
  maxTime : ℚ
  statusCodes : ℤ → ℕ

/-- The fresh `EndpointStats` value created on first sight of a pattern. -/
def emptyES : EndpointStats :=
  { count := 0, totalTime := 0, avgTime := 0, maxTime := 0, statusCodes := fun _ => 0 }

/-- Normalized endpoint pattern of a log line (`patternizeURI` of its `uri:`
field). -/
def linePattern (line : String) : String := patternizeURI (extractField (splitTab line) "uri:")

/-- Parsed `reqtime:` field of a log line. -/
def lineReqTime (line : String) : ℚ := parseRat (extractField (splitTab line) "reqtime:")

/-- Parsed `status:` field of a log line. -/
def lineStatus (line : String) : ℤ := parseInt (extractField (splitTab line) "status:")

/-- The per-line statistics update of `analyzeLog`: increment the count, add
the request time, raise the running maximum, bump the status histogram. -/
def bumpES (s : EndpointStats) (line : String) : EndpointStats :=
  { count := s.count + 1
    totalTime := s.totalTime + lineReqTime line
    avgTime := s.avgTime
    maxTime := if lineReqTime line > s.maxTime then lineReqTime line else s.maxTime
    statusCodes := fun c => if c = lineStatus line then s.statusCodes c + 1 else s.statusCodes c }

/-- One iteration of the `analyzeLog` loop over the stats map (create the
entry if absent, then fold the line in). -/
def statsStep (m : String → Option EndpointStats) (line : String) :
    String → Option EndpointStats :=
  fun k =>
    if k = linePattern line then some (bumpES ((m (linePattern line)).getD emptyES) line)
    else m k

/-- The stats map after the main loop of `analyzeLog`, before averages are
computed. -/
def rawStats (lines : List String) : String → Option EndpointStats :=
  lines.foldl statsStep (fun _ => none)

/-- Embeds `analyzeLog` of `src/unnamed/part_002`: fold every line into the
per-pattern statistics, then compute `avgTime = totalTime / count` once for
every present pattern. -/
def analyzeLog (lines : List String) : String → Option EndpointStats :=
  fun k => (rawStats lines k).map fun s => { s with avgTime := s.totalTime / (s.count : ℚ) }

/-- The slow-request record built from a line whose `reqtime` meets the
threshold (`nil` otherwise), as in the loop body of `extractSlowRequests`. -/
def slowOfLine (thr : ℚ) (line : String) : Option SlowRequest :=
  let fields := splitTab line
  let rq := parseRat (extractField fields "reqtime:")
  if rq ≥ thr then
    some { time := extractField fields "time:"
           uri := extractField fields "uri:"
           method := extractField fields "method:"
           reqTime := rq
           host := extractField fields "vhost:" }
  else none

/-- Sort order used for slow requests: descending by `reqTime` (non-strict
converse of the Go `less` function `ReqTime[i] > ReqTime[j]`). -/
def srRel (a b : SlowRequest) : Prop := b.reqTime ≤ a.reqTime

instance : DecidableRel srRel := fun a b => inferInstanceAs (Decidable (b.reqTime ≤ a.reqTime))

instance : IsTotal SlowRequest srRel := ⟨fun a b => le_total b.reqTime a.reqTime⟩

instance : IsTrans SlowRequest srRel := ⟨fun _ _ _ h1 h2 => le_trans h2 h1⟩

/-- Embeds `extractSlowRequests` of `src/unnamed/part_002`: collect every
line whose `reqtime` is at least the threshold, sorted descending by
request time. -/
def extractSlowRequests (lines : List String) (thr : ℚ) : List SlowRequest :=
  List.insertionSort srRel (lines.filterMap (slowOfLine thr))

/-- The JSON payload assembled by httplog `Analyze` (the encode step cannot
fail on these values). -/
structure HttplogResult where
  endpointStats : String → Option EndpointStats
  slowRequests : List SlowRequest
  configUsed : Bool

/-- Embeds httplog `Analyze` of `src/unnamed/part_002` in the
no-configuration case (`loadAlpConfig` failed or supplied no matching
groups, so `config_used` is false and `patternizeURI` uses the default
numeric normalization): split into lines, aggregate per endpoint, and keep
the 10 slowest requests (`slowRequests[:min(10, len(slowRequests))]`). -/
def analyzeHttplog (content : String) (thr : ℚ) : HttplogResult :=
  let lines := splitLines content
  { endpointStats := analyzeLog lines
    slowRequests := (extractSlowRequests lines thr).take 10
    configUsed := false }

/-- The request times of the lines that normalize to pattern `k`, in log
order — the values folded into that pattern's statistics. -/
def observedReqTimes (k : String) : List String → List ℚ
  | [] => []
  | l :: rest =>
    if linePattern l = k then lineReqTime l :: observedReqTimes k rest
    else observedReqTimes k rest

/-- Repeated `bumpES` over the lines matching pattern `k`, used to
characterize the fold in `analyzeLog`. -/
def accumES (s : EndpointStats) (k : String) : List String → EndpointStats
  | [] => s
  | l :: rest =>
    if linePattern l = k then accumES (bumpES s l) k rest
    else accumES s k rest

end Httplog

namespace Slowlog

/-- One event emitted by the external Percona slow-log parser
(`github.com/percona/go-mysql/log`), with the fields the slowlog `Analyze`
loop reads: `event.Ts` (modelled as an integer timestamp), `event.User`,
`event.Host`, `event.Db`, `event.Query`, `event.TimeMetrics["Query_time"]`,
`event.TimeMetrics["Lock_time"]`, `event.NumberMetrics["Rows_sent"]` and
`event.NumberMetrics["Rows_examined"]`. -/
structure Event where
  ts : ℤ
  user : String
  host : String
  db : String
  query : String
  queryTime : ℚ
  lockTime : ℚ
  rowsSent : ℤ
  rowsExamined : ℤ

/-- Embeds `QueryStats` of the slowlog analyzer (`exampleQ` embeds the Go
field `Example`, whose name is reserved in Lean). -/
structure QueryStats where
  pattern : String
  count : ℕ
  totalTime : ℚ
  avgTime : ℚ
  maxTime : ℚ
  minTime : ℚ
  rowsExamined : ℤ
  rowsExaminedAvg : ℚ
  rowsSent : ℤ
  rowsSentAvg : ℚ
  exampleQ : String
  firstSeen : ℤ
  lastSeen : ℤ

/-- Embeds `SlowQuery` of the slowlog analyzer. -/
structure SlowQuery where
  time : ℤ
  user : String
  host : String
  db : String
  queryTime : ℚ
  lockTime : ℚ
  rowsSent : ℤ
  rowsExamined : ℤ
  query : String

/-- Embeds `AnalysisResult` of the slowlog analyzer. -/
structure AnalysisResult where
  topQueryPatterns : List QueryStats
  slowestQueries : List SlowQuery
  totalQueries : ℕ
  totalTime : ℚ

/-- The sentinel used to initialize `MinTime`: the Go source writes
`float64(^uint64(0) >> 1)`, the conversion of `2^63 - 1` to `float64`
(which rounds to `2^63`; any value at least every observable query time
works identically, we use `2^63`). -/
def minTimeInit : ℚ := 2 ^ 63

/-- The fresh `QueryStats` created when a fingerprint is first seen. -/
def initQS (key : String) (e : Event) : QueryStats :=
  { pattern := key, count := 0, totalTime := 0, avgTime := 0, maxTime := 0
    minTime := minTimeInit, rowsExamined := 0, rowsExaminedAvg := 0
    rowsSent := 0, rowsSentAvg := 0, exampleQ := e.query
    firstSeen := e.ts, lastSeen := e.ts }

/-- The per-event statistics update of the slowlog `Analyze` loop:
increment the count, add the query time, refresh `lastSeen`, raise the
maximum, lower the minimum, accumulate the row counters. -/
def updQS (e : Event) (s : QueryStats) : QueryStats :=
  let s1 := { s with count := s.count + 1, totalTime := s.totalTime + e.queryTime,
                     lastSeen := e.ts }
  let s2 := if e.queryTime > s1.maxTime then { s1 with maxTime := e.queryTime } else s1
  let s3 := if e.queryTime < s2.minTime then { s2 with minTime := e.queryTime } else s2
  { s3 with rowsExamined := s3.rowsExamined + e.rowsExamined,
            rowsSent := s3.rowsSent + e.rowsSent }

/-- Association-list lookup, modelling `patternStats[fingerprintQuery]`. -/
def lookupA (ps : List (String × QueryStats)) (k : String) : Option QueryStats :=
  match ps with
  | [] => none
  | kv :: rest => if kv.1 = k then some kv.2 else lookupA rest k

/-- Association-list update modelling the map writes of the loop body:
create the entry with default `d` when absent, then apply `f` to it. -/
def updateStats (k : String) (f : QueryStats → QueryStats) (d : QueryStats) :
    List (String × QueryStats) → List (String × QueryStats)
  | [] => [(k, f d)]
  | kv :: rest => if kv.1 = k then (kv.1, f kv.2) :: rest else kv :: updateStats k f d rest

/-- The mutable state of the consuming loop of slowlog `Analyze`. -/
structure SState where
  patternStats : List (String × QueryStats)
  slowQueries : List SlowQuery
  totalQueries : ℕ
  totalTime : ℚ

/-- The state before any event is consumed. -/
def initState : SState :=
  { patternStats := [], slowQueries := [], totalQueries := 0, totalTime := 0 }

/-- The slow-query record appended when `queryTime >= threshold`. -/
def mkSlowQuery (e : Event) : SlowQuery :=
  { time := e.ts, user := e.user, host := e.host, db := e.db
    queryTime := e.queryTime, lockTime := e.lockTime
    rowsSent := e.rowsSent, rowsExamined := e.rowsExamined, query := e.query }

/-- Embeds one iteration of the event branch of the `select` loop in slowlog
`Analyze`; `fp` models the external `query.Fingerprint`. -/
def step (fp : String → String) (thr : ℚ) (st : SState) (e : Event) : SState :=
  let st1 :=
    if e.queryTime ≥ thr then { st with slowQueries := st.slowQueries ++ [mkSlowQuery e] }
    else st
  let key := fp e.query
  { st1 with patternStats := updateStats key (updQS e) (initQS key e) st1.patternStats,
             totalQueries := st1.totalQueries + 1,
             totalTime := st1.totalTime + e.queryTime }

/-- The consuming loop of slowlog `Analyze`: each iteration either receives
the next event or, once the 30-second deadline fires, stops.  `budget` is
the number of events the producer manages to deliver before the deadline:
the loop ends when the channel closes (event list exhausted) or the budget
reaches zero (timeout branch of the `select`). -/
def loopRun (fp : String → String) (thr : ℚ) : List Event → ℕ → SState → SState
  | _, 0, st => st
  | [], _ + 1, st => st
  | e :: rest, b + 1, st => loopRun fp thr rest b (step fp thr st e)

/-- The finalization of one pattern's statistics (`LOOP_END`): averages are
computed once from the accumulated totals. -/
def finalizeQS (s : QueryStats) : QueryStats :=
  { s with avgTime := s.totalTime / (s.count : ℚ),
           rowsExaminedAvg := (s.rowsExamined : ℚ) / (s.count : ℚ),
           rowsSentAvg := (s.rowsSent : ℚ) / (s.count : ℚ) }

/-- Sort order used for query patterns: descending by `totalTime`. -/
def qsRel (a b : QueryStats) : Prop := b.totalTime ≤ a.totalTime

instance : DecidableRel qsRel := fun a b => inferInstanceAs (Decidable (b.totalTime ≤ a.totalTime))

instance : IsTotal QueryStats qsRel := ⟨fun a b => le_total b.totalTime a.totalTime⟩

instance : IsTrans QueryStats qsRel := ⟨fun _ _ _ h1 h2 => le_trans h2 h1⟩

/-- Sort order used for slow queries: descending by `queryTime`. -/
def sqRel (a b : SlowQuery) : Prop := b.queryTime ≤ a.queryTime

instance : DecidableRel sqRel := fun a b => inferInstanceAs (Decidable (b.queryTime ≤ a.queryTime))

instance : IsTotal SlowQuery sqRel := ⟨fun a b => le_total b.queryTime a.queryTime⟩

instance : IsTrans SlowQuery sqRel := ⟨fun _ _ _ h1 h2 => le_trans h2 h1⟩

/-- Embeds the `LOOP_END` tail of slowlog `Analyze`: compute averages for
every pattern with a positive count, sort patterns descending by total
time and keep 20, sort slow queries descending by query time and keep 10. -/
def finalizeStats (st : SState) : AnalysisResult :=
  let statsSlice := st.patternStats.filterMap fun kv =>
    if kv.2.count > 0 then some (finalizeQS kv.2) else none
  { topQueryPatterns := (List.insertionSort qsRel statsSlice).take 20
    slowestQueries := (List.insertionSort sqRel st.slowQueries).take 10
    totalQueries := st.totalQueries
    totalTime := st.totalTime }

/-- The analysis result of slowlog `Analyze` when the producer delivers
`budget` events before the 30-second deadline (a larger budget than the
event count models the channel closing first). -/
def slowlogResult (fp : String → String) (events : List Event) (thr : ℚ) (budget : ℕ) :
    AnalysisResult :=
  finalizeStats (loopRun fp thr events budget initState)

/-- Embeds the full slowlog `Analyze` including its return convention: the
only error paths are temporary-file IO and the final `json.MarshalIndent`,
neither of which can fail on these values, so the analysis — timed out or
not — always returns `(jsonResult, nil)`. -/
def analyzeSlowlog (fp : String → String) (events : List Event) (thr : ℚ) (budget : ℕ) :
    Except String AnalysisResult :=
  Except.ok (slowlogResult fp events thr budget)

/-- The events among `es` whose fingerprint is `k` — the events folded into
pattern `k`'s statistics. -/
def evsOfPattern (fp : String → String) (k : String) : List Event → List Event
  | [] => []
  | e :: rest =>
    if fp e.query = k then e :: evsOfPattern fp k rest
    else evsOfPattern fp k rest

end Slowlog

namespace Pprof

/-- Embeds `profile.ValueType` (the fields the analyzer reads). -/
structure ValueType where
  type : String
  unit : String
deriving DecidableEq

/-- Embeds `profile.Line`: a resolved source line of a location, referencing
a function by id.  `funcId` models `line.Function.ID`. -/
structure Line where
  funcId : ℕ
  line : ℤ
deriving DecidableEq

/-- Embeds `profile.Location` (the fields the analyzer reads). -/
structure Location where
  id : ℕ
  address : ℕ
  line : List Line
deriving DecidableEq

/-- Embeds `profile.Function` (the fields the analyzer reads). -/
structure Function where
  id : ℕ
  name : String
  filename : String
  startLine : ℤ
deriving DecidableEq

/-- Embeds `profile.Sample`: the analyzer dereferences `sample.Location`
directly, so locations are embedded by value. -/
structure Sample where
  location : List Location
  value : List ℤ
deriving DecidableEq

/-- Embeds the parsed `profile.Profile` (the fields the analyzer reads). -/
structure Profile where
  sampleType : List ValueType
  sample : List Sample
  location : List Location
  function : List Function
  timeNanos : ℤ
  durationNanos : ℤ
  period : ℤ
  periodType : Option ValueType
deriving DecidableEq

/-- One `+= value` update of the Go map `funcCumulative` at key
`ln.funcId`. -/
def bumpCumulative (v : ℤ) (acc : ℕ → ℤ) (ln : Line) : ℕ → ℤ :=
  fun fid => if fid = ln.funcId then acc fid + v else acc fid

/-- One sample's contribution to `funcCumulative`: samples with no values or
no locations are skipped; otherwise `values[0]` is added once per line of
every location of the sample. -/
def sampleCumulative (acc : ℕ → ℤ) (s : Sample) : ℕ → ℤ :=
  if s.value = [] ∨ s.location = [] then acc
  else s.location.foldl (fun a loc => loc.line.foldl (bumpCumulative (s.value.headD 0)) a) acc

/-- Embeds the `funcCumulative` map computed in
`generateTextReportFromProfile` (section 2 of the report), as a total
function with default 0. -/
def funcCumulative (p : Profile) : ℕ → ℤ :=
  p.sample.foldl sampleCumulative (fun _ => 0)

/-- The number of line entries referencing function `fid` across the
resolved call stack of one sample. -/
def lineOccurrences (s : Sample) (fid : ℕ) : ℕ :=
  (s.location.map (fun loc => loc.line.countP (fun ln => ln.funcId = fid))).sum

/-- The keys of the Go map `funcCumulative` in first-touch order: every
function id appearing in a line of a location of a qualifying sample. -/
def touchedFuncIds (p : Profile) : List ℕ :=
  p.sample.foldl
    (fun acc s =>
      if s.value = [] ∨ s.location = [] then acc
      else s.location.foldl
        (fun a loc => loc.line.foldl
          (fun a2 ln => if ln.funcId ∈ a2 then a2 else a2 ++ [ln.funcId]) a) acc)
    []

/-- Sum of `values[0]` over all samples — the percentage denominator
(`totalValue` in the source, samples without values contributing 0). -/
def totalValue (p : Profile) : ℤ := (p.sample.map (fun s => s.value.headD 0)).sum

/-- The guard `len(prof.Sample) > 0 && len(prof.Sample[0].Value) > 0` around
the percentage computation of the function ranking. -/
def percentGuard (p : Profile) : Bool :=
  match p.sample with
  | [] => false
  | s :: _ => !s.value.isEmpty

/-- The percentage printed for a ranked function. -/
def funcPercent (p : Profile) (v : ℤ) : ℚ :=
  if percentGuard p = true ∧ 0 < totalValue p then (v : ℚ) / (totalValue p : ℚ) * 100 else 0

/-- One printed entry of the hotspot-function ranking. -/
structure FuncEntry where
  name : String
  filename : String
  startLine : ℤ
  value : ℤ
  percent : ℚ
deriving DecidableEq

/-- Sort order for the function ranking: descending by cumulative value. -/
def fvRel (a b : ℕ × ℤ) : Prop := b.2 ≤ a.2

instance : DecidableRel fvRel := fun a b => inferInstanceAs (Decidable (b.2 ≤ a.2))

instance : IsTotal (ℕ × ℤ) fvRel := ⟨fun a b => le_total b.2 a.2⟩

instance : IsTrans (ℕ × ℤ) fvRel := ⟨fun _ _ _ h1 h2 => le_trans h2 h1⟩

/-- The `(function id, cumulative value)` pairs sorted descending by value
(`funcValues` in the source). -/
def funcValuesSorted (p : Profile) : List (ℕ × ℤ) :=
  List.insertionSort fvRel ((touchedFuncIds p).map (fun fid => (fid, funcCumulative p fid)))

/-- The printed entries of report section 2: walk the ranked pairs, resolve
each id by linear search over `prof.Function` (first match), skip entries
that resolve to no function or to an empty name, stop after 50 printed. -/
def funcEntries (p : Profile) : List FuncEntry :=
  ((funcValuesSorted p).filterMap fun fv =>
    match p.function.find? (fun fn => fn.id = fv.1) with
    | some fn =>
      if fn.name = "" then none
      else some { name := fn.name, filename := fn.filename, startLine := fn.startLine,
                  value := fv.2, percent := funcPercent p fv.2 }
    | none => none).take 50

/-- Linear search for a function name by id (`for _, fn := range
prof.Function { if fn.ID == ... { ...; break } }`). -/
def findFuncName (fns : List Function) (fid : ℕ) : Option String :=
  (fns.find? (fun fn => fn.id = fid)).map Function.name

/-- One iteration of the call-path loop: a location contributes the function
name of the LAST entry of its line list, or nothing when its line list is
empty or the id is not in the function table. -/
def callPathStep (fns : List Function) (acc : List String) (loc : Location) : List String :=
  match loc.line.getLast? with
  | none => acc
  | some ln =>
    match findFuncName fns ln.funcId with
    | none => acc
    | some n => acc ++ [n]

/-- Embeds the call-path construction of report section 3: the sample's
locations are walked in reverse order (outermost frame first), each
contributing at most one frame. -/
def buildCallPath (fns : List Function) (locs : List Location) : List String :=
  locs.reverse.foldl (callPathStep fns) []

/-- One printed entry of the call-path ranking. -/
structure PathEntry where
  value : ℤ
  percent : ℚ
  callPath : List String
deriving DecidableEq

/-- The `(value, call path)` pairs collected from the samples (`samplePaths`
in the source): samples with no values, no locations, or an empty built
path are skipped. -/
def samplePaths (p : Profile) : List (ℤ × List String) :=
  p.sample.filterMap fun s =>
    if s.value = [] ∨ s.location = [] then none
    else
      let cp := buildCallPath p.function s.location
      if cp = [] then none else some (s.value.headD 0, cp)

/-- Sort order for the call-path ranking: descending by sample value. -/
def spRel (a b : ℤ × List String) : Prop := b.1 ≤ a.1

instance : DecidableRel spRel := fun a b => inferInstanceAs (Decidable (b.1 ≤ a.1))

instance : IsTotal (ℤ × List String) spRel := ⟨fun a b => le_total b.1 a.1⟩

instance : IsTrans (ℤ × List String) spRel := ⟨fun _ _ _ h1 h2 => le_trans h2 h1⟩

/-- The percentage printed for a call path. -/
def pathPercent (p : Profile) (v : ℤ) : ℚ :=
  if 0 < totalValue p then (v : ℚ) / (totalValue p : ℚ) * 100 else 0

/-- The printed entries of report section 3: paths sorted descending by
value, the first 50 displayed. -/
def pathEntries (p : Profile) : List PathEntry :=
  ((List.insertionSort spRel (samplePaths p)).take 50).map fun sv =>
    { value := sv.1, percent := pathPercent p sv.1, callPath := sv.2 }

/-- The data of report section 1 (everything `generateTextReportFromProfile`
prints under "Profile Information Summary"): the duration line is printed
only when `TimeNanos > 0`, the unit line only when `PeriodType` is non-nil,
the sample-type line only when sample types exist. -/
structure SummaryInfo where
  duration : Option ℤ
  periodType : Option ValueType
  sampleTypes : List ValueType
deriving DecidableEq

/-- Section 1 of the report. -/
def reportSummary (p : Profile) : SummaryInfo :=
  { duration := if p.timeNanos > 0 then some p.durationNanos else none
    periodType := p.periodType
    sampleTypes := p.sampleType }

/-- One line of report section 4: a sample type together with the total of
the corresponding value column over all samples. -/
def resourceEntries (p : Profile) : List (ValueType × ℤ) :=
  match p.sample with
  | [] => []
  | s0 :: _ =>
    p.sampleType.enum.filterMap fun ist =>
      if s0.value.length ≤ ist.1 then none
      else some (ist.2, (p.sample.map (fun s => s.value.getD ist.1 0)).sum)

/-- The fixed hint block of report section 5. -/
def hintLines : List String :=
  ["1. Focus on top functions (especially those consuming more than 10% of total resources)",
   "2. Deep call paths may indicate excessive recursion or library calls",
   "3. Consider optimizing functions that appear in multiple call paths",
   "4. Consider algorithm improvements, caching, and parallel processing for optimization"]

/-- One block written to the report's `strings.Builder`.  The blocks are
modelled structurally (headers and numeric formatting abstracted, order and
guards preserved). -/
inductive ReportSection where
  | summary (info : SummaryInfo)
  | hotspotFunctions (entries : List FuncEntry)
  | callPaths (entries : List PathEntry)
  | resourceUsage (entries : List (ValueType × ℤ))
  | hints (lines : List String)
deriving DecidableEq

/-- Embeds `generateTextReportFromProfile`: the report is the summary, the
function ranking, the call-path ranking, then — only when the profile has
at least one sample type — the resource usage distribution, then the hint
block.  When sample types are present but the sample list is empty the Go
code indexes `prof.Sample[0]` and panics; this is modelled by `none`. -/
def generateTextReportFromProfile (p : Profile) : Option (List ReportSection) :=
  let base := [ReportSection.summary (reportSummary p),
               ReportSection.hotspotFunctions (funcEntries p),
               ReportSection.callPaths (pathEntries p)]
  if p.sampleType = [] then some (base ++ [ReportSection.hints hintLines])
  else
    match p.sample with
    | [] => none
    | _ :: _ =>
      some (base ++ [ReportSection.resourceUsage (resourceEntries p),
                     ReportSection.hints hintLines])

/-- One frame of a resolved call stack in the structured JSON. -/
structure CallFrame where
  function : String
  filename : String
  line : ℤ
deriving DecidableEq

/-- One entry of the `stackTraces` array in the structured JSON. -/
structure StackTrace where
  id : ℕ
  address : ℕ
  callStack : List CallFrame
deriving DecidableEq

/-- Embeds the `functionMap` of `generateStructuredJSON`: a Go map built by
insertion over `prof.Function`, a later entry overwriting an earlier one
with the same id. -/
def functionMap (p : Profile) : ℕ → Option Function :=
  p.function.foldl (fun m fn => fun fid => if fid = fn.id then some fn else m fid)
    (fun _ => none)

/-- The resolved call stack of a location in `generateStructuredJSON`: one
frame per line whose function id is present in the function map. -/
def resolveCallStack (p : Profile) (loc : Location) : List CallFrame :=
  loc.line.filterMap fun ln =>
    (functionMap p ln.funcId).map fun fn =>
      { function := fn.name, filename := fn.filename, line := ln.line }

/-- Embeds the `stackTraces` array of `generateStructuredJSON`: locations
whose resolved call stack is empty are discarded. -/
def stackTraces (p : Profile) : List StackTrace :=
  p.location.filterMap fun loc =>
    let cs := resolveCallStack p loc
    if cs.isEmpty then none else some { id := loc.id, address := loc.address, callStack := cs }

end Pprof

section ConcreteInputs

/-- Two access-log lines matching the spec's scenario: `/users/42` at
request times 2.0 and 0.3. -/
def linesEx : List String :=
  ["time:t1\tmethod:GET\turi:/users/42\tstatus:200\treqtime:2.0\tvhost:h",
   "time:t2\tmethod:GET\turi:/users/42\tstatus:200\treqtime:0.3\tvhost:h"]

/-- The `/users/:id` statistics computed from `linesEx`. -/
def statsEx : Httplog.EndpointStats :=
  (Httplog.analyzeLog linesEx "/users/:id").getD Httplog.emptyES

/-- A trivial fingerprint function for witnesses. -/
def fpEx : String → String := fun _ => "select * from t where id=?"

/-- Two slow-log events for the timeout witness. -/
def eventsEx : List Slowlog.Event :=
  [{ ts := 1, user := "u", host := "h", db := "d", query := "select * from t where id=1",
     queryTime := 3, lockTime := 0, rowsSent := 1, rowsExamined := 5 },
   { ts := 2, user := "u", host := "h", db := "d", query := "select * from t where id=2",
     queryTime := 1, lockTime := 0, rowsSent := 1, rowsExamined := 5 }]

/-- A profile with one sample type and one sample: enough for the report to
include the resource-usage section.  One function, one location, one
sample. -/
def profC1 : Pprof.Profile :=
  { sampleType := [{ type := "cpu", unit := "nanoseconds" }]
    sample := [{ location := [{ id := 1, address := 4096, line := [{ funcId := 1, line := 10 }] }],
                 value := [100] }]
    location := [{ id := 1, address := 4096, line := [{ funcId := 1, line := 10 }] }]
    function := [{ id := 1, name := "main.run", filename := "main.go", startLine := 5 }]
    timeNanos := 1, durationNanos := 10, period := 1000, periodType := some { type := "cpu", unit := "nanoseconds" } }

/-- The spec scenario for the summation rule: one sample with
`values[0] = 100` whose single location resolves to function 1 twice
(an inlined call), so function 1 is credited 200. -/
def profC2 : Pprof.Profile :=
  { sampleType := [{ type := "cpu", unit := "nanoseconds" }]
    sample := [{ location := [{ id := 1, address := 4096,
                                line := [{ funcId := 1, line := 10 }, { funcId := 1, line := 20 }] }],
                 value := [100] }]
    location := [{ id := 1, address := 4096,
                   line := [{ funcId := 1, line := 10 }, { funcId := 1, line := 20 }] }]
    function := [{ id := 1, name := "main.f", filename := "main.go", startLine := 5 }]
    timeNanos := 1, durationNanos := 10, period := 1000, periodType := none }

/-- A profile whose single location carries an inlined line (function 1)
followed by the caller line (function 2): the call path shows only
function 2, while the ranking credits both. -/
def profC10 : Pprof.Profile :=
  { sampleType := [{ type := "cpu", unit := "nanoseconds" }]
    sample := [{ location := [{ id := 1, address := 4096,
                                line := [{ funcId := 1, line := 10 }, { funcId := 2, line := 20 }] }],
                 value := [7] }]
    location := [{ id := 1, address := 4096,
                   line := [{ funcId := 1, line := 10 }, { funcId := 2, line := 20 }] }]
    function := [{ id := 1, name := "inlined.callee", filename := "a.go", startLine := 1 },
                 { id := 2, name := "outer.caller", filename := "b.go", startLine := 2 }]
    timeNanos := 1, durationNanos := 10, period := 1000, periodType := none }

/-- A profile whose single location references only a function id absent
from the function table: its call stack resolves to zero lines. -/
def profC9gone : Pprof.Profile :=
  { sampleType := [], sample := []
    location := [{ id := 7, address := 64, line := [{ funcId := 99, line := 3 }] }]
    function := [{ id := 1, name := "present", filename := "p.go", startLine := 1 }]
    timeNanos := 0, durationNanos := 0, period := 0, periodType := none }

/-- A profile with one resolvable location, for the structured-summary
witness. -/
def profC9ok : Pprof.Profile :=
  { sampleType := [], sample := []
    location := [{ id := 1, address := 4096, line := [{ funcId := 1, line := 10 }] }]
    function := [{ id := 1, name := "main.run", filename := "main.go", startLine := 5 }]
    timeNanos := 0, durationNanos := 0, period := 0, periodType := none }

end ConcreteInputs

namespace Httplog

theorem patStep_id_of_hmStep_false : ∀ l : List Char,
    (hmStep none l = false → patStep none l = l) ∧
    (∀ ds : List Char, hmStep (some (!ds.isEmpty)) l = false →
      patStep (some ds) l = '/' :: (ds ++ l)) := by
  intro l
  induction l with
  | nil =>
    refine ⟨fun _ => rfl, fun ds h => ?_⟩
    simp only [hmStep, Bool.not_eq_false'] at h
    have hds : ds = [] := List.isEmpty_iff.mp h
    subst hds
    simp [patStep]
  | cons c rest ih =>
    constructor
    · intro h
      by_cases hc : c = '/'
      · subst hc
        simp only [hmStep, if_pos rfl] at h
        simp only [patStep, if_pos rfl]
        have := (ih.2 []) (by simpa using h)
        simpa using this
      · simp only [hmStep, if_neg hc] at h
        simp only [patStep, if_neg hc]
        exact congrArg (c :: ·) (ih.1 h)
    · intro ds h
      by_cases hd : c.isDigit
      · simp only [hmStep, if_pos hd] at h
        simp only [patStep, if_pos hd]
        have hne : (ds ++ [c]).isEmpty = false := by simp
        have := (ih.2 (ds ++ [c])) (by rw [hne]; simpa using h)
        simpa [List.append_assoc] using this
      · by_cases hc : c = '/'
        · subst hc
          by_cases he : ds.isEmpty
          · have hds : ds = [] := List.isEmpty_iff.mp he
            subst hds
            simp only [hmStep, if_neg hd, if_pos rfl, List.isEmpty_nil, Bool.not_true,
              Bool.false_eq_true, if_false] at h
            simp only [patStep, if_neg hd, if_pos rfl, List.isEmpty_nil, if_true]
            have := (ih.2 []) (by simpa using h)
            simpa using this
          · have hb : ds.isEmpty = false := by
              revert he; cases ds.isEmpty <;> simp
            simp [hmStep, if_neg hd, hb] at h
        · simp only [hmStep, if_neg hd, if_neg hc] at h
          simp only [patStep, if_neg hd, if_neg hc]
          rw [ih.1 h]

end Httplog

/-- C3, counterexample: URI normalization is not idempotent.  In
`"/a/1/2"` the match `"/1/"` consumes the slash before `2`, so the first
pass yields `"/a/:id/2"`; a second pass then rewrites the surviving numeric
segment to `"/a/:id/:id"`. -/
theorem claim_C3_counterexample :
    Httplog.patternizeURI (Httplog.patternizeURI "/a/1/2") ≠ Httplog.patternizeURI "/a/1/2" := by
  decide

/-- C3 (corrected): URI normalization is idempotent on every URI whose
normalized form contains no remaining match of `/\d+(/|$)` — in particular
on every already-normalized digit-free pattern such as `/users/:id`.  It is
not idempotent in general: a purely numeric segment directly following
another numeric segment survives the first pass (its leading slash is
consumed by the preceding match) and is rewritten by the second. -/
theorem claim_C3_amended (u : String) (h : Httplog.hasMatch (Httplog.patternizeURI u) = false) :
    Httplog.patternizeURI (Httplog.patternizeURI u) = Httplog.patternizeURI u := by
  unfold Httplog.patternizeURI
  have h' : Httplog.hmStep none (Httplog.patStep none u.data) = false := h
  have := (Httplog.patStep_id_of_hmStep_false (Httplog.patStep none u.data)).1 h'
  simp [Httplog.patternizeURI, this]

/-- C3, witness: the already-normalized pattern `/users/:id` (obtained from
`/users/42`) is a fixed point of a second normalization pass. -/
theorem claim_C3_witness :
    Httplog.hasMatch (Httplog.patternizeURI "/users/42") = false ∧
      Httplog.patternizeURI (Httplog.patternizeURI "/users/42") =
        Httplog.patternizeURI "/users/42" :=
  ⟨by decide, claim_C3_amended "/users/42" (by decide)⟩

namespace Pprof

theorem foldl_bumpCumulative (v : ℤ) (fid : ℕ) :
    ∀ (lines : List Line) (acc : ℕ → ℤ),
      (lines.foldl (bumpCumulative v) acc) fid =
        acc fid + v * (lines.countP (fun ln => ln.funcId = fid) : ℤ) := by
  intro lines
  induction lines with
  | nil => intro acc; simp
  | cons ln rest ih =>
    intro acc
    rw [List.foldl_cons, ih, List.countP_cons]
    by_cases h : ln.funcId = fid
    · simp [bumpCumulative, h, Nat.cast_add, mul_add]
      ring
    · have h' : ¬ fid = ln.funcId := fun hh => h hh.symm
      simp [bumpCumulative, h, h']

theorem natCast_listSum (l : List ℕ) : ((l.sum : ℕ) : ℤ) = (l.map (fun n : ℕ => (n : ℤ))).sum := by
  induction l with
  | nil => simp
  | cons a t ih => simp [ih]

theorem foldl_locCumulative (v : ℤ) (fid : ℕ) :
    ∀ (locs : List Location) (acc : ℕ → ℤ),
      (locs.foldl (fun a loc => loc.line.foldl (bumpCumulative v) a) acc) fid =
        acc fid + v * ((locs.map (fun loc => loc.line.countP (fun ln => ln.funcId = fid))).sum : ℤ) := by
  intro locs
  induction locs with
  | nil => intro acc; simp
  | cons loc rest ih =>
    intro acc
    rw [List.foldl_cons, ih, foldl_bumpCumulative]
    simp only [List.map_cons, List.sum_cons]
    ring

theorem castOcc (s : Sample) (fid : ℕ) :
    ((lineOccurrences s fid : ℕ) : ℤ) =
      (s.location.map (fun loc => ((loc.line.countP (fun ln => ln.funcId = fid) : ℕ) : ℤ))).sum := by
  unfold lineOccurrences
  rw [natCast_listSum, List.map_map]
  rfl

theorem foldl_sampleCumulative (fid : ℕ) :
    ∀ (samples : List Sample) (acc : ℕ → ℤ),
      (samples.foldl sampleCumulative acc) fid =
        acc fid + (samples.map (fun s => s.value.headD 0 * (lineOccurrences s fid : ℤ))).sum := by
  intro samples
  induction samples with
  | nil => intro acc; simp
  | cons s rest ih =>
    intro acc
    rw [List.foldl_cons, ih]
    by_cases hg : s.value = [] ∨ s.location = []
    · have hz : s.value.headD 0 * (lineOccurrences s fid : ℤ) = 0 := by
        rcases hg with hv | hl
        · simp [hv]
        · simp [lineOccurrences, hl]
      rw [List.map_cons, List.sum_cons, hz]
      simp [sampleCumulative, hg]
    · rw [List.map_cons, List.sum_cons]
      simp only [sampleCumulative, if_neg hg]
      rw [foldl_locCumulative, castOcc]
      ring

end Pprof

/-- C2 (confirmed): the cumulative hotspot cost credited to a function
equals, over all samples, `values[0]` times the number of line entries
across the sample's locations referencing that function — once per line
occurrence, not per distinct function.  In particular, in `profC2`, one
sample with `values[0] = 100` whose single location resolves to function 1
twice contributes 200. -/
theorem claim_C2 :
    (∀ (p : Pprof.Profile) (fid : ℕ),
      Pprof.funcCumulative p fid =
        (p.sample.map (fun s => s.value.headD 0 * (Pprof.lineOccurrences s fid : ℤ))).sum) ∧
    Pprof.funcCumulative profC2 1 = 200 := by
  constructor
  · intro p fid
    unfold Pprof.funcCumulative
    rw [Pprof.foldl_sampleCumulative]
    simp
  · decide

namespace Pprof

theorem foldl_callPathStep (fns : List Function) :
    ∀ (locs : List Location) (acc : List String),
      locs.foldl (callPathStep fns) acc =
        acc ++ locs.filterMap (fun loc => (loc.line.getLast?).bind (fun ln => findFuncName fns ln.funcId)) := by
  intro locs
  induction locs with
  | nil => intro acc; simp
  | cons loc rest ih =>
    intro acc
    rw [List.foldl_cons, ih, List.filterMap_cons]
    unfold callPathStep
    cases hl : loc.line.getLast? with
    | none => simp
    | some ln =>
      cases hf : findFuncName fns ln.funcId with
      | none => simp [hf]
      | some n => simp [hf]

end Pprof

/-- C10 (confirmed): in the call-path section each location contributes at
most one frame, the one named by the last entry of its line list (so
inlined frames — all lines but the last — never appear, and locations with
an empty line list or an unresolvable last line are skipped); the path list
is therefore at most as long as the location list.  In `profC10`, whose
single location holds an inlined line for function 1 followed by the caller
line for function 2, the printed path is just `outer.caller`, while the
function ranking in the same report credits both function 1 and function 2
with the full sample value. -/
theorem claim_C10 :
    (∀ (fns : List Pprof.Function) (locs : List Pprof.Location),
      Pprof.buildCallPath fns locs =
        locs.reverse.filterMap (fun loc => (loc.line.getLast?).bind (fun ln => Pprof.findFuncName fns ln.funcId)) ∧
      (Pprof.buildCallPath fns locs).length ≤ locs.length) ∧
    (Pprof.buildCallPath profC10.function
        [{ id := 1, address := 4096,
           line := [{ funcId := 1, line := 10 }, { funcId := 2, line := 20 }] }] =
      ["outer.caller"] ∧
     Pprof.funcCumulative profC10 1 = 7 ∧ Pprof.funcCumulative profC10 2 = 7) := by
  constructor
  · intro fns locs
    have hmain : Pprof.buildCallPath fns locs =
        locs.reverse.filterMap (fun loc => (loc.line.getLast?).bind (fun ln => Pprof.findFuncName fns ln.funcId)) := by
      unfold Pprof.buildCallPath
      rw [Pprof.foldl_callPathStep]
      simp
    refine ⟨hmain, ?_⟩
    rw [hmain]
    calc (locs.reverse.filterMap _).length ≤ locs.reverse.length := List.length_filterMap_le _ _
      _ = locs.length := List.length_reverse _
  · exact ⟨by decide, by decide, by decide⟩

/-- C9 (confirmed): every entry emitted into the structured summary's
`stackTraces` array has a non-empty resolved call stack; a location all of
whose line entries reference function ids absent from the profile's
function table resolves to zero frames and is discarded (no error), as
`profC9gone` shows. -/
theorem claim_C9 :
    (∀ (p : Pprof.Profile) (e : Pprof.StackTrace),
      e ∈ Pprof.stackTraces p → e.callStack ≠ []) ∧
    Pprof.stackTraces profC9gone = [] := by
  constructor
  · intro p e he
    unfold Pprof.stackTraces at he
    rcases List.mem_filterMap.mp he with ⟨loc, _, hf⟩
    by_cases h : (Pprof.resolveCallStack p loc).isEmpty
    · simp [h] at hf
    · simp only [h, if_false, Bool.false_eq_true] at hf
      cases hf
      intro hnil
      exact h (by simpa using hnil)
  · decide

/-- C9, witness: `profC9ok` has one resolvable location, and the emitted
stack-trace entry indeed carries a non-empty call stack. -/
theorem claim_C9_witness :
    ({ id := 1, address := 4096,
       callStack := [{ function := "main.run", filename := "main.go", line := 10 }] } :
        Pprof.StackTrace).callStack ≠ [] :=
  claim_C9.1 profC9ok _ (by decide)

theorem take_length_le {α : Type} (l : List α) (n : ℕ) : (l.take n).length ≤ n := by
  simp [List.length_take]

/-- C1, counterexample: on `profC1` (one sample type, one sample) the text
report is NOT the four claimed sections — a fifth block, the resource usage
distribution, is emitted between the call paths and the hint block. -/
theorem claim_C1_counterexample :
    ¬ ∃ (info : Pprof.SummaryInfo) (fe : List Pprof.FuncEntry) (pe : List Pprof.PathEntry)
        (hs : List String),
      Pprof.generateTextReportFromProfile profC1 =
        some [Pprof.ReportSection.summary info, Pprof.ReportSection.hotspotFunctions fe,
              Pprof.ReportSection.callPaths pe, Pprof.ReportSection.hints hs] := by
  rintro ⟨info, fe, pe, hs, h⟩
  have h5 : Pprof.generateTextReportFromProfile profC1 =
      some [Pprof.ReportSection.summary (Pprof.reportSummary profC1),
            Pprof.ReportSection.hotspotFunctions (Pprof.funcEntries profC1),
            Pprof.ReportSection.callPaths (Pprof.pathEntries profC1),
            Pprof.ReportSection.resourceUsage (Pprof.resourceEntries profC1),
            Pprof.ReportSection.hints Pprof.hintLines] := rfl
  rw [h5] at h
  simp at h

/-- C1 (corrected): for every decodable profile on which the report
generator returns (at least one sample type and at least one sample — with
sample types but no samples the Go code panics indexing `prof.Sample[0]`),
the report consists of exactly FIVE sections in this order: (1) the profile
summary; (2) the top functions by cumulative primary-value cost; (3) the
top call paths by sample value; (4) the resource usage distribution; (5)
the fixed block of four optimization hints.  The claimed four-section form
only occurs for profiles with no sample types, where section 4 is skipped. -/
theorem claim_C1_amended (p : Pprof.Profile) (h1 : p.sampleType ≠ []) (h2 : p.sample ≠ []) :
    Pprof.generateTextReportFromProfile p =
      some [Pprof.ReportSection.summary (Pprof.reportSummary p),
            Pprof.ReportSection.hotspotFunctions (Pprof.funcEntries p),
            Pprof.ReportSection.callPaths (Pprof.pathEntries p),
            Pprof.ReportSection.resourceUsage (Pprof.resourceEntries p),
            Pprof.ReportSection.hints Pprof.hintLines] := by
  unfold Pprof.generateTextReportFromProfile
  rw [if_neg h1]
  cases hs : p.sample with
  | nil => exact absurd hs h2
  | cons s rest => rfl

/-- C1, witness: the five-section decomposition instantiated at `profC1`. -/
theorem claim_C1_witness :
    Pprof.generateTextReportFromProfile profC1 =
      some [Pprof.ReportSection.summary (Pprof.reportSummary profC1),
            Pprof.ReportSection.hotspotFunctions (Pprof.funcEntries profC1),
            Pprof.ReportSection.callPaths (Pprof.pathEntries profC1),
            Pprof.ReportSection.resourceUsage (Pprof.resourceEntries profC1),
            Pprof.ReportSection.hints Pprof.hintLines] :=
  claim_C1_amended profC1 (by decide) (by decide)

/-- C7 (confirmed): output truncation bounds — at most 10 access-log slow
requests, at most 20 slow-query patterns, at most 10 slowest queries, at
most 50 ranked functions and at most 50 call paths in the hotspot report. -/
theorem claim_C7 (content : String) (thr : ℚ) (fp : String → String)
    (events : List Slowlog.Event) (thr2 : ℚ) (budget : ℕ) (p : Pprof.Profile) :
    (Httplog.analyzeHttplog content thr).slowRequests.length ≤ 10 ∧
    (Slowlog.slowlogResult fp events thr2 budget).topQueryPatterns.length ≤ 20 ∧
    (Slowlog.slowlogResult fp events thr2 budget).slowestQueries.length ≤ 10 ∧
    (Pprof.funcEntries p).length ≤ 50 ∧
    (Pprof.pathEntries p).length ≤ 50 := by
  refine ⟨?_, ?_, ?_, ?_, ?_⟩
  · exact take_length_le _ 10
  · exact take_length_le _ 20
  · exact take_length_le _ 10
  · exact take_length_le _ 50
  · rw [Pprof.pathEntries, List.length_map]
    exact take_length_le _ 50

theorem listAll_append {α : Type} (p : α → Prop) (l1 l2 : List α) :
    ListAll p (l1 ++ l2) ↔ ListAll p l1 ∧ ListAll p l2 := by
  rw [listAll_iff, listAll_iff, listAll_iff]
  constructor
  · intro h
    exact ⟨fun a ha => h a (List.mem_append_left _ ha),
           fun a ha => h a (List.mem_append_right _ ha)⟩
  · rintro ⟨h1, h2⟩ a ha
    rcases List.mem_append.mp ha with ha | ha
    · exact h1 a ha
    · exact h2 a ha

namespace Slowlog

theorem loopRun_eq_foldl (fp : String → String) (thr : ℚ) :
    ∀ (events : List Event) (b : ℕ) (st : SState),
      loopRun fp thr events b st = (events.take b).foldl (step fp thr) st := by
  intro events
  induction events with
  | nil => intro b st; cases b <;> simp [loopRun]
  | cons e rest ih =>
    intro b st
    cases b with
    | zero => simp [loopRun]
    | succ n => simp [loopRun, ih]

theorem step_slowQueries_all (fp : String → String) (thr : ℚ) (st : SState) (e : Event)
    (h : ListAll (fun q => thr ≤ q.queryTime) st.slowQueries) :
    ListAll (fun q => thr ≤ q.queryTime) (step fp thr st e).slowQueries := by
  unfold step
  by_cases hq : e.queryTime ≥ thr
  · simp only [hq, if_pos]
    exact (listAll_append _ _ _).mpr ⟨h, hq, trivial⟩
  · simp only [hq, if_false]
    exact h

theorem foldl_slowQueries_all (fp : String → String) (thr : ℚ) :
    ∀ (es : List Event) (st : SState),
      ListAll (fun q => thr ≤ q.queryTime) st.slowQueries →
      ListAll (fun q => thr ≤ q.queryTime) ((es.foldl (step fp thr) st).slowQueries) := by
  intro es
  induction es with
  | nil => intro st h; exact h
  | cons e rest ih =>
    intro st h
    rw [List.foldl_cons]
    exact ih _ (step_slowQueries_all fp thr st e h)

end Slowlog

/-- C4 (confirmed): when the 30-second deadline fires after `j` events while
the producer's channel is still open (`j < events.length`), slowlog
`Analyze` stops consuming, finalizes averages, sorting and truncation over
exactly the `j` events consumed before the deadline, and returns that
result with a nil error. -/
theorem claim_C4 (fp : String → String) (events : List Slowlog.Event) (thr : ℚ) (j : ℕ)
    (h : j < events.length) :
    Slowlog.analyzeSlowlog fp events thr j =
      Except.ok (Slowlog.finalizeStats
        ((events.take j).foldl (Slowlog.step fp thr) Slowlog.initState)) := by
  unfold Slowlog.analyzeSlowlog Slowlog.slowlogResult
  rw [Slowlog.loopRun_eq_foldl]

/-- C4, witness: with two pending events and a deadline firing after one,
the analyzer returns (with no error) the finalization of just that first
event. -/
theorem claim_C4_witness :
    1 < eventsEx.length ∧
    Slowlog.analyzeSlowlog fpEx eventsEx (1/2) 1 =
      Except.ok (Slowlog.finalizeStats
        ((eventsEx.take 1).foldl (Slowlog.step fpEx (1/2)) Slowlog.initState)) :=
  ⟨by decide, claim_C4 fpEx eventsEx (1/2) 1 (by decide)⟩

/-- C6 (confirmed): every access-log `slow_requests` record has `reqTime`
at least the supplied threshold and the list is sorted non-increasing by
`reqTime`; every slowlog `slowest_queries` record has `queryTime` at least
the supplied threshold and the list is sorted non-increasing by
`queryTime`. -/
theorem claim_C6 (content : String) (thr : ℚ) (fp : String → String)
    (events : List Slowlog.Event) (thr2 : ℚ) (budget : ℕ) :
    ListAll (fun r => thr ≤ r.reqTime) (Httplog.analyzeHttplog content thr).slowRequests ∧
    List.Pairwise (fun a b => b.reqTime ≤ a.reqTime)
      (Httplog.analyzeHttplog content thr).slowRequests ∧
    ListAll (fun q => thr2 ≤ q.queryTime)
      (Slowlog.slowlogResult fp events thr2 budget).slowestQueries ∧
    List.Pairwise (fun a b => b.queryTime ≤ a.queryTime)
      (Slowlog.slowlogResult fp events thr2 budget).slowestQueries := by
  refine ⟨?_, ?_, ?_, ?_⟩
  · rw [listAll_iff]
    intro r hr
    have hr2 : r ∈ Httplog.extractSlowRequests (Httplog.splitLines content) thr :=
      List.take_subset _ _ hr
    unfold Httplog.extractSlowRequests at hr2
    have hr3 := (List.mem_insertionSort Httplog.srRel).mp hr2
    rcases List.mem_filterMap.mp hr3 with ⟨line, _, hsome⟩
    unfold Httplog.slowOfLine at hsome
    by_cases hq : Httplog.parseRat (Httplog.extractField (Httplog.splitTab line) "reqtime:") ≥ thr
    · rw [if_pos hq] at hsome
      cases hsome
      exact hq
    · rw [if_neg hq] at hsome
      cases hsome
  · have hp : List.Pairwise Httplog.srRel
        (List.insertionSort Httplog.srRel
          ((Httplog.splitLines content).filterMap (Httplog.slowOfLine thr))) :=
      List.sorted_insertionSort Httplog.srRel _
    exact List.Pairwise.sublist (List.take_sublist _ _) (hp.imp (fun h => h))
  · rw [listAll_iff]
    intro q hq
    have hq2 : q ∈ List.insertionSort Slowlog.sqRel
        ((Slowlog.loopRun fp thr2 events budget Slowlog.initState).slowQueries) :=
      List.take_subset _ _ hq
    have hq3 := (List.mem_insertionSort Slowlog.sqRel).mp hq2
    have hall := Slowlog.foldl_slowQueries_all fp thr2 (events.take budget)
      Slowlog.initState trivial
    rw [← Slowlog.loopRun_eq_foldl] at hall
    exact (listAll_iff _ _).mp hall q hq3
  · have hp : List.Pairwise Slowlog.sqRel
        (List.insertionSort Slowlog.sqRel
          ((Slowlog.loopRun fp thr2 events budget Slowlog.initState).slowQueries)) :=
      List.sorted_insertionSort Slowlog.sqRel _
    exact List.Pairwise.sublist (List.take_sublist _ _) (hp.imp (fun h => h))

namespace Httplog

theorem bumpES_maxTime (s : EndpointStats) (line : String) :
    (bumpES s line).maxTime = max s.maxTime (lineReqTime line) := by
  unfold bumpES
  rcases le_or_lt (lineReqTime line) s.maxTime with h | h
  · rw [if_neg (not_lt.mpr h)]
    exact (max_eq_left h).symm
  · rw [if_pos h]
    exact (max_eq_right h.le).symm

theorem observedReqTimes_append (k : String) :
    ∀ (l1 l2 : List String),
      observedReqTimes k (l1 ++ l2) = observedReqTimes k l1 ++ observedReqTimes k l2 := by
  intro l1 l2
  induction l1 with
  | nil => rfl
  | cons l rest ih =>
    by_cases hp : linePattern l = k
    · simp [observedReqTimes, hp, ih]
    · simp [observedReqTimes, hp, ih]

theorem foldl_statsStep_lookup (k : String) :
    ∀ (lines : List String) (m : String → Option EndpointStats),
      (m k = none ∧ observedReqTimes k lines = [] ∧ (lines.foldl statsStep m) k = none) ∨
      (lines.foldl statsStep m) k = some (accumES ((m k).getD emptyES) k lines) := by
  intro lines
  induction lines with
  | nil =>
    intro m
    cases hm : m k with
    | none => exact Or.inl ⟨rfl, rfl, hm⟩
    | some s =>
      right
      rw [List.foldl_nil, hm]
      rfl
  | cons l rest ih =>
    intro m
    rw [List.foldl_cons]
    by_cases hp : linePattern l = k
    · have hm' : (statsStep m l) k = some (bumpES ((m k).getD emptyES) l) := by
        unfold statsStep
        rw [if_pos hp.symm, hp]
      have hacc : accumES ((m k).getD emptyES) k (l :: rest) =
          accumES (bumpES ((m k).getD emptyES) l) k rest := by
        simp [accumES, hp]
      rcases ih (statsStep m l) with ⟨h1, _, _⟩ | h2
      · rw [hm'] at h1
        cases h1
      · right
        rw [h2, hm', hacc]
        rfl
    · have hm' : (statsStep m l) k = m k := by
        unfold statsStep
        rw [if_neg (fun hh => hp hh.symm)]
      have hobs : observedReqTimes k (l :: rest) = observedReqTimes k rest := by
        simp [observedReqTimes, hp]
      have hacc : ∀ s0, accumES s0 k (l :: rest) = accumES s0 k rest := by
        intro s0; simp [accumES, hp]
      rcases ih (statsStep m l) with ⟨h1, h2, h3⟩ | h2
      · rw [hm'] at h1
        exact Or.inl ⟨h1, by rw [hobs]; exact h2, h3⟩
      · right
        rw [h2, hm', hacc]

theorem accumES_maxTime (k : String) :
    ∀ (lines : List String) (s : EndpointStats),
      (accumES s k lines).maxTime = (observedReqTimes k lines).foldl max s.maxTime := by
  intro lines
  induction lines with
  | nil => intro s; rfl
  | cons l rest ih =>
    intro s
    by_cases hp : linePattern l = k
    · have h1 : accumES s k (l :: rest) = accumES (bumpES s l) k rest := by
        simp [accumES, hp]
      have h2 : observedReqTimes k (l :: rest) = lineReqTime l :: observedReqTimes k rest := by
        simp [observedReqTimes, hp]
      rw [h1, h2, ih, List.foldl_cons, bumpES_maxTime]
    · have h1 : accumES s k (l :: rest) = accumES s k rest := by
        simp [accumES, hp]
      have h2 : observedReqTimes k (l :: rest) = observedReqTimes k rest := by
        simp [observedReqTimes, hp]
      rw [h1, h2, ih]

theorem le_foldl_max : ∀ (l : List ℚ) (x : ℚ), x ≤ l.foldl max x := by
  intro l
  induction l with
  | nil => intro x; exact le_refl x
  | cons a t ih =>
    intro x
    rw [List.foldl_cons]
    exact le_trans (le_max_left x a) (ih (max x a))

theorem optionGetD_of_isSome {α : Type} (o : Option α) (d : α) (h : o.isSome = true) :
    o = some (o.getD d) := by
  cases o with
  | none => simp at h
  | some a => rfl

end Httplog

/-- C5 (confirmed): for every endpoint pattern present in the access-log
statistics, `avgTime = totalTime / count` holds exactly (computed once
after all lines are folded in), and `maxTime` is the running maximum —
the fold of `max` from the initial zero over the request times observed
for that pattern — which never decreases as further lines are folded in. -/
theorem claim_C5 (lines more : List String) (k : String) (s s2 : Httplog.EndpointStats)
    (h : Httplog.analyzeLog lines k = some s)
    (h2 : Httplog.analyzeLog (lines ++ more) k = some s2) :
    s.avgTime = s.totalTime / (s.count : ℚ) ∧
    s.maxTime = (Httplog.observedReqTimes k lines).foldl max 0 ∧
    s.maxTime ≤ s2.maxTime := by
  unfold Httplog.analyzeLog at h h2
  rcases Option.map_eq_some'.mp h with ⟨s0, hs0, hfa⟩
  rcases Option.map_eq_some'.mp h2 with ⟨t0, ht0, hfb⟩
  have hraw := Httplog.foldl_statsStep_lookup k lines (fun _ => none)
  have hraw2 := Httplog.foldl_statsStep_lookup k (lines ++ more) (fun _ => none)
  rw [Httplog.rawStats] at hs0 ht0
  rcases hraw with ⟨_, _, hnone⟩ | hsome
  · rw [hs0] at hnone
    cases hnone
  rcases hraw2 with ⟨_, _, hnone2⟩ | hsome2
  · rw [ht0] at hnone2
    cases hnone2
  rw [hs0] at hsome
  rw [ht0] at hsome2
  have hs0v : s0 = Httplog.accumES Httplog.emptyES k lines := Option.some.inj hsome
  have ht0v : t0 = Httplog.accumES Httplog.emptyES k (lines ++ more) := Option.some.inj hsome2
  subst hfa hfb hs0v ht0v
  refine ⟨rfl, ?_, ?_⟩
  · simpa using Httplog.accumES_maxTime k lines Httplog.emptyES
  · have hm1 : (Httplog.accumES Httplog.emptyES k lines).maxTime =
        (Httplog.observedReqTimes k lines).foldl max 0 := by
      simpa using Httplog.accumES_maxTime k lines Httplog.emptyES
    have hm2 : (Httplog.accumES Httplog.emptyES k (lines ++ more)).maxTime =
        (Httplog.observedReqTimes k lines ++ Httplog.observedReqTimes k more).foldl max 0 := by
      rw [← Httplog.observedReqTimes_append]
      simpa using Httplog.accumES_maxTime k (lines ++ more) Httplog.emptyES
    rw [hm1, hm2, List.foldl_append]
    exact Httplog.le_foldl_max _ _

/-- C5, witness: the statistics of the `/users/:id` pattern computed from
the two concrete lines of `linesEx` satisfy the exact-average identity and
the running-maximum characterization. -/
theorem claim_C5_witness :
    statsEx.avgTime = statsEx.totalTime / (statsEx.count : ℚ) ∧
    statsEx.maxTime = (Httplog.observedReqTimes "/users/:id" linesEx).foldl max 0 ∧
    statsEx.maxTime ≤ statsEx.maxTime :=
  claim_C5 linesEx [] "/users/:id" statsEx statsEx
    (Httplog.optionGetD_of_isSome _ _ (by decide))
    (by rw [List.append_nil]; exact Httplog.optionGetD_of_isSome _ _ (by decide))

namespace Slowlog

theorem updQS_minTime (e : Event) (s : QueryStats) :
    (updQS e s).minTime = if e.queryTime < s.minTime then e.queryTime else s.minTime := by
  unfold updQS
  dsimp only
  split_ifs <;> rfl

theorem updQS_maxTime (e : Event) (s : QueryStats) :
    (updQS e s).maxTime = if e.queryTime > s.maxTime then e.queryTime else s.maxTime := by
  unfold updQS
  dsimp only
  split_ifs <;> rfl

theorem updQS_pattern (e : Event) (s : QueryStats) : (updQS e s).pattern = s.pattern := by
  unfold updQS
  dsimp only
  split_ifs <;> rfl

theorem updQS_min_le (e : Event) (s : QueryStats) : (updQS e s).minTime ≤ s.minTime := by
  rw [updQS_minTime]
  split_ifs with h
  · exact le_of_lt h
  · exact le_refl _

theorem updQS_min_le_event (e : Event) (s : QueryStats) : (updQS e s).minTime ≤ e.queryTime := by
  rw [updQS_minTime]
  split_ifs with h
  · exact le_refl _
  · exact not_lt.mp h

theorem updQS_max_ge (e : Event) (s : QueryStats) : s.maxTime ≤ (updQS e s).maxTime := by
  rw [updQS_maxTime]
  split_ifs with h
  · exact le_of_lt h
  · exact le_refl _

theorem updQS_max_ge_event (e : Event) (s : QueryStats) : e.queryTime ≤ (updQS e s).maxTime := by
  rw [updQS_maxTime]
  split_ifs with h
  · exact le_refl _
  · exact not_lt.mp h

theorem lookupA_updateStats_self (k : String) (f : QueryStats → QueryStats) (d : QueryStats) :
    ∀ ps, lookupA (updateStats k f d ps) k = some (f ((lookupA ps k).getD d)) := by
  intro ps
  induction ps with
  | nil => simp [updateStats, lookupA]
  | cons kv rest ih =>
    by_cases h : kv.1 = k
    · simp [updateStats, h, lookupA]
    · simp [updateStats, h, lookupA, ih]

theorem lookupA_updateStats_ne (k : String) (f : QueryStats → QueryStats) (d : QueryStats)
    (k' : String) (hne : k' ≠ k) :
    ∀ ps, lookupA (updateStats k f d ps) k' = lookupA ps k' := by
  intro ps
  induction ps with
  | nil =>
    simp only [updateStats, lookupA]
    rw [if_neg (fun hh => hne hh.symm)]
  | cons kv rest ih =>
    by_cases h : kv.1 = k
    · have hk' : ¬ kv.1 = k' := fun hh => hne (hh.symm.trans h)
      rw [updateStats, if_pos h]
      simp only [lookupA]
      rw [if_neg hk', if_neg hk']
    · by_cases h2 : kv.1 = k'
      · rw [updateStats, if_neg h]
        simp only [lookupA]
        rw [if_pos h2, if_pos h2]
      · rw [updateStats, if_neg h]
        simp only [lookupA]
        rw [if_neg h2, if_neg h2, ih]

theorem lookupA_eq_some_mem :
    ∀ (ps : List (String × QueryStats)) (k : String) (s : QueryStats),
      lookupA ps k = some s → (k, s) ∈ ps := by
  intro ps
  induction ps with
  | nil => intro k s h; cases h
  | cons kv rest ih =>
    intro k s h
    unfold lookupA at h
    by_cases hk : kv.1 = k
    · rw [if_pos hk] at h
      have hs : kv.2 = s := Option.some.inj h
      have hpair : (k, s) = kv := by rw [← hk, ← hs]
      rw [hpair]
      exact List.mem_cons_self _ _
    · rw [if_neg hk] at h
      exact List.mem_cons_of_mem _ (ih k s h)

theorem keys_updateStats_subset (k : String) (f : QueryStats → QueryStats) (d : QueryStats) :
    ∀ (ps : List (String × QueryStats)) (x : String),
      x ∈ (updateStats k f d ps).map Prod.fst → x = k ∨ x ∈ ps.map Prod.fst := by
  intro ps
  induction ps with
  | nil =>
    intro x hx
    rw [updateStats] at hx
    simp at hx
    exact Or.inl hx
  | cons kv rest ih =>
    intro x hx
    by_cases h : kv.1 = k
    · rw [updateStats, if_pos h, List.map_cons] at hx
      rcases List.mem_cons.mp hx with hx | hx
      · have hx' : x = kv.1 := hx
        right
        rw [List.map_cons, hx']
        exact List.mem_cons_self _ _
      · right
        rw [List.map_cons]
        exact List.mem_cons_of_mem _ hx
    · rw [updateStats, if_neg h, List.map_cons] at hx
      rcases List.mem_cons.mp hx with hx | hx
      · right
        rw [List.map_cons, hx]
        exact List.mem_cons_self _ _
      · rcases ih x hx with hh | hh
        · exact Or.inl hh
        · right
          rw [List.map_cons]
          exact List.mem_cons_of_mem _ hh

theorem nodup_updateStats (k : String) (f : QueryStats → QueryStats) (d : QueryStats) :
    ∀ ps, (ps.map Prod.fst).Nodup → ((updateStats k f d ps).map Prod.fst).Nodup := by
  intro ps
  induction ps with
  | nil => intro _; simp [updateStats]
  | cons kv rest ih =>
    intro hnd
    rw [List.map_cons, List.nodup_cons] at hnd
    by_cases h : kv.1 = k
    · rw [updateStats, if_pos h, List.map_cons, List.nodup_cons]
      exact ⟨hnd.1, hnd.2⟩
    · rw [updateStats, if_neg h, List.map_cons, List.nodup_cons]
      constructor
      · intro hx
        rcases keys_updateStats_subset k f d rest kv.1 hx with hh | hh
        · exact h hh
        · exact hnd.1 hh
      · exact ih hnd.2

theorem mem_updateStats (k : String) (f : QueryStats → QueryStats) (d : QueryStats) :
    ∀ (ps : List (String × QueryStats)) (kv : String × QueryStats),
      (ps.map Prod.fst).Nodup →
      kv ∈ updateStats k f d ps →
      (kv ∈ ps ∧ kv.1 ≠ k) ∨ (kv.1 = k ∧ kv.2 = f ((lookupA ps k).getD d)) := by
  intro ps
  induction ps with
  | nil =>
    intro kv _ hm
    simp [updateStats] at hm
    right
    rw [hm]
    simp [lookupA]
  | cons kv0 rest ih =>
    intro kv hnd hm
    rw [List.map_cons, List.nodup_cons] at hnd
    by_cases h : kv0.1 = k
    · rw [updateStats, if_pos h] at hm
      rcases List.mem_cons.mp hm with hm | hm
      · right
        rw [hm]
        refine ⟨h, ?_⟩
        unfold lookupA
        rw [if_pos h]
        rfl
      · left
        refine ⟨List.mem_cons_of_mem _ hm, ?_⟩
        intro hk
        have hmem : kv.1 ∈ rest.map Prod.fst := List.mem_map_of_mem Prod.fst hm
        rw [hk, ← h] at hmem
        exact hnd.1 hmem
    · rw [updateStats, if_neg h] at hm
      rcases List.mem_cons.mp hm with hm | hm
      · left
        rw [hm]
        exact ⟨List.mem_cons_self _ _, fun hk => h hk⟩
      · rcases ih kv hnd.2 hm with ⟨hmem, hne⟩ | ⟨hk, hv⟩
        · exact Or.inl ⟨List.mem_cons_of_mem _ hmem, hne⟩
        · right
          refine ⟨hk, ?_⟩
          rw [hv]
          have hstep : lookupA (kv0 :: rest) k = lookupA rest k := by
            simp only [lookupA]
            rw [if_neg h]
          rw [hstep]

theorem evsOfPattern_append (fp : String → String) (k : String) :
    ∀ (l1 l2 : List Event),
      evsOfPattern fp k (l1 ++ l2) = evsOfPattern fp k l1 ++ evsOfPattern fp k l2 := by
  intro l1 l2
  induction l1 with
  | nil => rfl
  | cons e rest ih =>
    by_cases h : fp e.query = k
    · simp [evsOfPattern, h, ih]
    · simp [evsOfPattern, h, ih]

/-- The loop invariant tying the pattern-statistics table to the events
consumed so far: keys are unique, every entry's `pattern` field is its key,
every entry's `minTime`/`maxTime` bracket every query time folded into it,
and patterns absent from the table have no folded-in events. -/
def PatInv (fp : String → String) (consumed : List Event)
    (ps : List (String × QueryStats)) : Prop :=
  (ps.map Prod.fst).Nodup ∧
  (∀ kv ∈ ps, (kv : String × QueryStats).2.pattern = kv.1) ∧
  (∀ kv ∈ ps, ∀ e ∈ evsOfPattern fp (kv : String × QueryStats).1 consumed,
    kv.2.minTime ≤ (e : Event).queryTime ∧ e.queryTime ≤ kv.2.maxTime) ∧
  (∀ k, lookupA ps k = none → evsOfPattern fp k consumed = [])

end Slowlog

namespace Slowlog

theorem step_patternStats (fp : String → String) (thr : ℚ) (st : SState) (e : Event) :
    (step fp thr st e).patternStats =
      updateStats (fp e.query) (updQS e) (initQS (fp e.query) e) st.patternStats := by
  unfold step
  split_ifs <;> rfl

theorem evsOfPattern_single (fp : String → String) (k : String) (e : Event) :
    evsOfPattern fp k [e] = if fp e.query = k then [e] else [] := by
  by_cases h : fp e.query = k
  · simp [evsOfPattern, h]
  · simp [evsOfPattern, h]

theorem step_PatInv (fp : String → String) (thr : ℚ) (st : SState) (e : Event)
    (consumed : List Event) (h : PatInv fp consumed st.patternStats) :
    PatInv fp (consumed ++ [e]) (step fp thr st e).patternStats := by
  obtain ⟨hnd, hpat, hbr, hnone⟩ := h
  rw [step_patternStats]
  refine ⟨nodup_updateStats _ _ _ _ hnd, ?_, ?_, ?_⟩
  · intro kv hm
    rcases mem_updateStats _ _ _ _ kv hnd hm with ⟨hmem, _⟩ | ⟨hk, hv⟩
    · exact hpat kv hmem
    · rw [hv, hk, updQS_pattern]
      cases hl : lookupA st.patternStats (fp e.query) with
      | none => simp [hl, initQS]
      | some s' =>
        have := hpat (fp e.query, s') (lookupA_eq_some_mem _ _ _ hl)
        simpa [hl] using this
  · intro kv hm e' he'
    rw [evsOfPattern_append] at he'
    rcases mem_updateStats _ _ _ _ kv hnd hm with ⟨hmem, hne⟩ | ⟨hk, hv⟩
    · have hq : ¬ fp e.query = kv.1 := fun hh => hne (hh.symm)
      rw [evsOfPattern_single, if_neg hq, List.append_nil] at he'
      exact hbr kv hmem e' he'
    · rw [hk] at he'
      rw [evsOfPattern_single, if_pos rfl] at he'
      cases hl : lookupA st.patternStats (fp e.query) with
      | none =>
        rw [hnone (fp e.query) hl, List.nil_append] at he'
        have he'' : e' = e := List.mem_singleton.mp he'
        rw [hv, hl, he'']
        exact ⟨updQS_min_le_event e _, updQS_max_ge_event e _⟩
      | some s' =>
        rcases List.mem_append.mp he' with hold | hnew
        · have hmem' : (fp e.query, s') ∈ st.patternStats := lookupA_eq_some_mem _ _ _ hl
          have hb := hbr (fp e.query, s') hmem' e' hold
          rw [hv, hl]
          constructor
          · exact le_trans (updQS_min_le e _) hb.1
          · exact le_trans hb.2 (updQS_max_ge e _)
        · have he'' : e' = e := List.mem_singleton.mp hnew
          rw [hv, hl, he'']
          exact ⟨updQS_min_le_event e _, updQS_max_ge_event e _⟩
  · intro k' hl'
    have hne : k' ≠ fp e.query := by
      intro hh
      rw [hh, lookupA_updateStats_self] at hl'
      cases hl'
    rw [lookupA_updateStats_ne _ _ _ _ hne] at hl'
    rw [evsOfPattern_append, hnone k' hl', List.nil_append, evsOfPattern_single,
      if_neg (fun hh => hne hh.symm)]

theorem foldl_PatInv (fp : String → String) (thr : ℚ) :
    ∀ (es : List Event) (st : SState) (consumed : List Event),
      PatInv fp consumed st.patternStats →
      PatInv fp (consumed ++ es) ((es.foldl (step fp thr) st).patternStats) := by
  intro es
  induction es with
  | nil =>
    intro st consumed h
    rw [List.append_nil]
    exact h
  | cons e rest ih =>
    intro st consumed h
    rw [List.foldl_cons]
    have h2 := ih (step fp thr st e) (consumed ++ [e]) (step_PatInv fp thr st e consumed h)
    rw [List.append_assoc] at h2
    simpa using h2

theorem PatInv_init (fp : String → String) : PatInv fp [] [] := by
  refine ⟨List.nodup_nil, ?_, ?_, ?_⟩
  · intro kv hm
    cases hm
  · intro kv hm
    cases hm
  · intro k _
    rfl

theorem finalizeQS_minTime (s : QueryStats) : (finalizeQS s).minTime = s.minTime := rfl

theorem finalizeQS_maxTime (s : QueryStats) : (finalizeQS s).maxTime = s.maxTime := rfl

theorem finalizeQS_pattern (s : QueryStats) : (finalizeQS s).pattern = s.pattern := rfl

end Slowlog

/-- C8 (confirmed): for every query pattern in the slowlog result, `minTime`
is at most every query time folded into that pattern and every such query
time is at most `maxTime` — `minTime` starts at the sentinel maximum and is
only lowered, `maxTime` starts at zero and is only raised. -/
theorem claim_C8 (fp : String → String) (events : List Slowlog.Event) (thr : ℚ) (budget : ℕ) :
    ListAll (fun qs =>
      ListAll (fun e =>
          (qs : Slowlog.QueryStats).minTime ≤ (e : Slowlog.Event).queryTime ∧
          e.queryTime ≤ qs.maxTime)
        (Slowlog.evsOfPattern fp (qs : Slowlog.QueryStats).pattern (events.take budget)))
      (Slowlog.slowlogResult fp events thr budget).topQueryPatterns := by
  rw [listAll_iff]
  intro qs hq
  rw [listAll_iff]
  intro e he
  have hinv := Slowlog.foldl_PatInv fp thr (events.take budget) Slowlog.initState []
    (Slowlog.PatInv_init fp)
  rw [List.nil_append] at hinv
  obtain ⟨_, hpat, hbr, _⟩ := hinv
  have hq2 : qs ∈ (List.insertionSort Slowlog.qsRel
      (((events.take budget).foldl (Slowlog.step fp thr) Slowlog.initState).patternStats.filterMap
        fun kv => if kv.2.count > 0 then some (Slowlog.finalizeQS kv.2) else none)) := by
    have := List.take_subset 20 _ hq
    rw [Slowlog.slowlogResult, Slowlog.loopRun_eq_foldl] at hq
    exact List.take_subset 20 _ hq
  have hq3 := (List.mem_insertionSort Slowlog.qsRel).mp hq2
  rcases List.mem_filterMap.mp hq3 with ⟨kv, hkv, hsome⟩
  by_cases hc : kv.2.count > 0
  · rw [if_pos hc] at hsome
    have hqs : qs = Slowlog.finalizeQS kv.2 := (Option.some.inj hsome).symm
    have hp2 : qs.pattern = kv.1 := by
      rw [hqs, Slowlog.finalizeQS_pattern]
      exact hpat kv hkv
    rw [hp2] at he
    have hb := hbr kv hkv e he
    rw [hqs, Slowlog.finalizeQS_minTime, Slowlog.finalizeQS_maxTime]
    exact hb
  · rw [if_neg hc] at hsome
    cases hsome
